import Mathlib

/-!
Verification of the Williams Fractal indicator
(`src/indicators/williams_fractal.rs` of billythedummy/ta-rs).

The detector only ever *compares* its `f64` inputs with `<` and `>` and
stores/returns them unchanged, so we embed `f64` as the type `FP` below:
a rational number, one of the two infinities, or NaN, with the IEEE-754
strict comparison (every comparison involving NaN is false, the
infinities compare as extreme elements, finite values compare as
rationals).  This captures exactly the observable behaviour of the Rust
code on every `f64` input.
-/

/-- Shallow embedding of an `f64` value as used by the indicator:
finite values are rationals, plus the two infinities and NaN. -/
inductive FP where
  | nan : FP
  | neg_inf : FP
  | finite : ℚ → FP
  | pos_inf : FP
deriving DecidableEq

/-- IEEE-754 strict less-than on embedded `f64` values: any comparison
with NaN is false; otherwise the usual extended order. -/
def FP.lt : FP → FP → Bool
  | .nan, _ => false
  | _, .nan => false
  | .neg_inf, .neg_inf => false
  | .neg_inf, .finite _ => true
  | .neg_inf, .pos_inf => true
  | .finite _, .neg_inf => false
  | .finite a, .finite b => decide (a < b)
  | .finite _, .pos_inf => true
  | .pos_inf, _ => false

/-- `a > b` on embedded `f64` values, as the Rust code writes it. -/
def FP.gt (a b : FP) : Bool := FP.lt b a

theorem FP.lt_irrefl (x : FP) : FP.lt x x = false := by
  cases x <;> simp [FP.lt]

theorem FP.lt_asymm {x y : FP} (h : FP.lt x y = true) : FP.lt y x = false := by
  cases x <;> cases y <;> simp_all [FP.lt]
  exact h.le

theorem FP.lt_nan_right (x : FP) : FP.lt x .nan = false := by
  cases x <;> rfl

theorem FP.lt_nan_left (x : FP) : FP.lt .nan x = false := by
  cases x <;> rfl

/-- One input bar: the four accessors `high`, `low`, `open`, `close`
required of the generic input type `T: High + Low + Open + Close`.
(`open` is a Lean keyword, hence the field name `open_`.) -/
structure Bar where
  high : FP
  low : FP
  open_ : FP
  close : FP
deriving DecidableEq

/-- The detector state `WilliamsFractal`: circular 5-element buffers of
highs, lows and bar directions, plus the write cursor `t_i`.
The cursor is `Fin 5`: the Rust field is a `usize` that is `0` or `4`
at construction and is only ever reassigned `(t_i + 1) % 5`. -/
structure WilliamsFractal where
  highs : Fin 5 → FP
  lows : Fin 5 → FP
  is_bullish : Fin 5 → Bool
  t_i : Fin 5

/-- The two-branch index computation of `next` (lines 147-153):
the slot holding the bar `i` steps before cursor `t_i`. -/
def offset (t_i : Fin 5) (i : ℕ) : Fin 5 :=
  if h : t_i.val ≥ i then ⟨t_i.val - i, by have := t_i.isLt; omega⟩
  else ⟨5 - (i - t_i.val), by omega⟩

/-- `WilliamsFractal::new` (lines 73-93): seed slots 0-3 from the four
past bars (oldest first), leave slot 4 at the placeholder
(`0.0` / `false`), cursor at 4. -/
def WilliamsFractal.new (past_highs past_lows past_opens past_closes : Fin 4 → FP) :
    WilliamsFractal where
  highs := fun i => if h : i.val < 4 then past_highs ⟨i.val, h⟩ else FP.finite 0
  lows := fun i => if h : i.val < 4 then past_lows ⟨i.val, h⟩ else FP.finite 0
  is_bullish := fun i =>
    if h : i.val < 4 then FP.gt (past_closes ⟨i.val, h⟩) (past_opens ⟨i.val, h⟩) else false
  t_i := ⟨4, by omega⟩

/-- `WilliamsFractal::initial` (lines 97-104): fill all 5 slots with the
one seed bar's values, cursor at 0.  (`from_initial`, lines 128-135, is
the same map applied to the accessors of a generic bar.) -/
def WilliamsFractal.initial (high low open_ close : FP) : WilliamsFractal where
  highs := fun _ => high
  lows := fun _ => low
  is_bullish := fun _ => FP.gt close open_
  t_i := ⟨0, by omega⟩

/-- The result type `WilliamsFractalType`. -/
inductive WilliamsFractalType where
  | Bearish : FP → WilliamsFractalType
  | Bullish : FP → WilliamsFractalType
  | Neither : WilliamsFractalType
deriving DecidableEq

/-- The bullish pattern predicate of `next` (lines 156-164), evaluated
on the post-write buffers. -/
def bullishCond (lows : Fin 5 → FP) (is_bullish : Fin 5 → Bool) (t_i : Fin 5) : Bool :=
  FP.lt (lows (offset t_i 3)) (lows (offset t_i 4))
  && FP.lt (lows (offset t_i 2)) (lows (offset t_i 3))
  && FP.gt (lows (offset t_i 1)) (lows (offset t_i 2))
  && FP.gt (lows t_i) (lows (offset t_i 1))
  && !(is_bullish (offset t_i 4))
  && !(is_bullish (offset t_i 3))
  && !(is_bullish (offset t_i 2))
  && is_bullish (offset t_i 1)
  && is_bullish t_i

/-- The bearish pattern predicate of `next` (lines 166-174). -/
def bearishCond (highs : Fin 5 → FP) (is_bullish : Fin 5 → Bool) (t_i : Fin 5) : Bool :=
  FP.gt (highs (offset t_i 3)) (highs (offset t_i 4))
  && FP.gt (highs (offset t_i 2)) (highs (offset t_i 3))
  && FP.lt (highs (offset t_i 1)) (highs (offset t_i 2))
  && FP.lt (highs t_i) (highs (offset t_i 1))
  && is_bullish (offset t_i 4)
  && is_bullish (offset t_i 3)
  && is_bullish (offset t_i 2)
  && !(is_bullish (offset t_i 1))
  && !(is_bullish t_i)

/-- The `highs` buffer after the write `self.highs[t_i] = input.high()`
(line 143). -/
def postHighs (s : WilliamsFractal) (input : Bar) : Fin 5 → FP :=
  Function.update s.highs s.t_i input.high

/-- The `lows` buffer after the write `self.lows[t_i] = input.low()`
(line 144). -/
def postLows (s : WilliamsFractal) (input : Bar) : Fin 5 → FP :=
  Function.update s.lows s.t_i input.low

/-- The `is_bullish` buffer after the write
`self.is_bullish[t_i] = input.close() > input.open()` (line 145). -/
def postDirs (s : WilliamsFractal) (input : Bar) : Fin 5 → Bool :=
  Function.update s.is_bullish s.t_i (FP.gt input.close input.open_)

/-- `Next::next` (lines 141-184): write the new bar at the cursor slot,
evaluate both pattern predicates at offsets 1-4 from the pre-advance
cursor, advance the cursor, and return the classification (bullish
checked first, payload the value stored at offset 2). -/
def next (s : WilliamsFractal) (input : Bar) : WilliamsFractal × WilliamsFractalType :=
  (⟨postHighs s input, postLows s input, postDirs s input, ⟨(s.t_i.val + 1) % 5, by omega⟩⟩,
    if bullishCond (postLows s input) (postDirs s input) s.t_i then
      .Bullish (postLows s input (offset s.t_i 2))
    else if bearishCond (postHighs s input) (postDirs s input) s.t_i then
      .Bearish (postHighs s input (offset s.t_i 2))
    else .Neither)

/-- Feed a list of bars, returning the final state. -/
def run (s : WilliamsFractal) (bs : List Bar) : WilliamsFractal :=
  bs.foldl (fun st b => (next st b).1) s

/-- Feed a list of bars, returning the list of classifications. -/
def runOutputs (s : WilliamsFractal) : List Bar → List WilliamsFractalType
  | [] => []
  | b :: bs => (next s b).2 :: runOutputs (next s b).1 bs

/-- Unfolding `bullishCond` into its nine conjuncts. -/
theorem bullishCond_iff (L : Fin 5 → FP) (D : Fin 5 → Bool) (t : Fin 5) :
    bullishCond L D t = true ↔
      (FP.lt (L (offset t 3)) (L (offset t 4)) = true
        ∧ FP.lt (L (offset t 2)) (L (offset t 3)) = true
        ∧ FP.gt (L (offset t 1)) (L (offset t 2)) = true
        ∧ FP.gt (L t) (L (offset t 1)) = true
        ∧ D (offset t 4) = false
        ∧ D (offset t 3) = false
        ∧ D (offset t 2) = false
        ∧ D (offset t 1) = true
        ∧ D t = true) := by
  simp [bullishCond, Bool.and_eq_true, Bool.not_eq_true', and_assoc]

/-- Unfolding `bearishCond` into its nine conjuncts. -/
theorem bearishCond_iff (H : Fin 5 → FP) (D : Fin 5 → Bool) (t : Fin 5) :
    bearishCond H D t = true ↔
      (FP.gt (H (offset t 3)) (H (offset t 4)) = true
        ∧ FP.gt (H (offset t 2)) (H (offset t 3)) = true
        ∧ FP.lt (H (offset t 1)) (H (offset t 2)) = true
        ∧ FP.lt (H t) (H (offset t 1)) = true
        ∧ D (offset t 4) = true
        ∧ D (offset t 3) = true
        ∧ D (offset t 2) = true
        ∧ D (offset t 1) = false
        ∧ D t = false) := by
  simp [bearishCond, Bool.and_eq_true, Bool.not_eq_true', and_assoc]

/-- C2: `next` returns `Bullish v` iff, on the post-write buffers with
offsets taken from the pre-advance cursor, the lows satisfy
low[t3] < low[t4], low[t2] < low[t3], low[t1] > low[t2], low[t] > low[t1],
the direction flags of t4, t3, t2 are false and those of t1, t are true,
and the payload `v` is the low stored at slot t2. -/
theorem next_bullish_iff (s : WilliamsFractal) (b : Bar) (v : FP) :
    (next s b).2 = WilliamsFractalType.Bullish v ↔
      (FP.lt (postLows s b (offset s.t_i 3)) (postLows s b (offset s.t_i 4)) = true
        ∧ FP.lt (postLows s b (offset s.t_i 2)) (postLows s b (offset s.t_i 3)) = true
        ∧ FP.gt (postLows s b (offset s.t_i 1)) (postLows s b (offset s.t_i 2)) = true
        ∧ FP.gt (postLows s b s.t_i) (postLows s b (offset s.t_i 1)) = true
        ∧ postDirs s b (offset s.t_i 4) = false
        ∧ postDirs s b (offset s.t_i 3) = false
        ∧ postDirs s b (offset s.t_i 2) = false
        ∧ postDirs s b (offset s.t_i 1) = true
        ∧ postDirs s b s.t_i = true)
      ∧ v = postLows s b (offset s.t_i 2) := by
  constructor
  · intro h
    by_cases hB : bullishCond (postLows s b) (postDirs s b) s.t_i = true
    · refine ⟨(bullishCond_iff _ _ _).mp hB, ?_⟩
      have h2 : (next s b).2 = WilliamsFractalType.Bullish (postLows s b (offset s.t_i 2)) := by
        simp [next, hB]
      rw [h2] at h
      exact (WilliamsFractalType.Bullish.injEq _ _).mp h.symm
    · exfalso
      simp only [Bool.not_eq_true] at hB
      rcases hE : bearishCond (postHighs s b) (postDirs s b) s.t_i <;>
        simp [next, hB, hE] at h
  · rintro ⟨hc, hv⟩
    have hB := (bullishCond_iff _ _ _).mpr hc
    simp [next, hB, hv]

/-- C3: `next` returns `Bearish v` iff the bullish predicate of the same
step is false and, on the post-write buffers, the highs satisfy
high[t3] > high[t4], high[t2] > high[t3], high[t1] < high[t2],
high[t] < high[t1], the direction flags of t4, t3, t2 are true and those
of t1, t are false, with payload the high stored at slot t2. -/
theorem next_bearish_iff (s : WilliamsFractal) (b : Bar) (v : FP) :
    (next s b).2 = WilliamsFractalType.Bearish v ↔
      bullishCond (postLows s b) (postDirs s b) s.t_i = false
      ∧ (FP.gt (postHighs s b (offset s.t_i 3)) (postHighs s b (offset s.t_i 4)) = true
        ∧ FP.gt (postHighs s b (offset s.t_i 2)) (postHighs s b (offset s.t_i 3)) = true
        ∧ FP.lt (postHighs s b (offset s.t_i 1)) (postHighs s b (offset s.t_i 2)) = true
        ∧ FP.lt (postHighs s b s.t_i) (postHighs s b (offset s.t_i 1)) = true
        ∧ postDirs s b (offset s.t_i 4) = true
        ∧ postDirs s b (offset s.t_i 3) = true
        ∧ postDirs s b (offset s.t_i 2) = true
        ∧ postDirs s b (offset s.t_i 1) = false
        ∧ postDirs s b s.t_i = false)
      ∧ v = postHighs s b (offset s.t_i 2) := by
  constructor
  · intro h
    rcases hB : bullishCond (postLows s b) (postDirs s b) s.t_i with _ | _
    · by_cases hE : bearishCond (postHighs s b) (postDirs s b) s.t_i = true
      · refine ⟨rfl, (bearishCond_iff _ _ _).mp hE, ?_⟩
        have h2 : (next s b).2 = WilliamsFractalType.Bearish (postHighs s b (offset s.t_i 2)) := by
          simp [next, hB, hE]
        rw [h2] at h
        exact (WilliamsFractalType.Bearish.injEq _ _).mp h.symm
      · exfalso
        simp only [Bool.not_eq_true] at hE
        simp [next, hB, hE] at h
    · exfalso
      simp [next, hB] at h
  · rintro ⟨hB, hc, hv⟩
    have hE := (bearishCond_iff _ _ _).mpr hc
    simp [next, hB, hE, hv]

/-- C5: the cursor advances by exactly 1 modulo 5 on every call to
`next`, it always stays in [0,5), and after any 5 consecutive calls it
returns to its starting value. -/
theorem next_cursor_advance (s : WilliamsFractal) (b b1 b2 b3 b4 b5 : Bar) :
    (next s b).1.t_i.val = (s.t_i.val + 1) % 5
    ∧ (next s b).1.t_i.val < 5
    ∧ (run s [b1, b2, b3, b4, b5]).t_i = s.t_i := by
  refine ⟨rfl, (next s b).1.t_i.isLt, ?_⟩
  have h5 : (run s [b1, b2, b3, b4, b5]).t_i.val
      = (((((s.t_i.val + 1) % 5 + 1) % 5 + 1) % 5 + 1) % 5 + 1) % 5 := by
    rfl
  apply Fin.ext
  rw [h5]
  have := s.t_i.isLt
  omega

/-- C9: `next` writes exactly the pre-step cursor slot of each of the
three buffers (with the new bar's high, low and direction) and leaves
every other slot of every buffer unchanged. -/
theorem next_frame (s : WilliamsFractal) (b : Bar) :
    ((next s b).1.highs s.t_i = b.high
      ∧ (next s b).1.lows s.t_i = b.low
      ∧ (next s b).1.is_bullish s.t_i = FP.gt b.close b.open_)
    ∧ ∀ i : Fin 5, i ≠ s.t_i →
        (next s b).1.highs i = s.highs i
        ∧ (next s b).1.lows i = s.lows i
        ∧ (next s b).1.is_bullish i = s.is_bullish i := by
  constructor
  · refine ⟨?_, ?_, ?_⟩ <;> simp [next, postHighs, postLows, postDirs]
  · intro i hi
    refine ⟨?_, ?_, ?_⟩ <;>
      simp [next, postHighs, postLows, postDirs, Function.update_noteq hi]

/-- Witness for C9 at a concrete state, bar and untouched slot. -/
theorem next_frame_witness :
    (next (WilliamsFractal.initial (FP.finite 2) (FP.finite 1) (FP.finite 1) (FP.finite 2))
        ⟨FP.finite 9, FP.finite 8, FP.finite 8, FP.finite 9⟩).1.lows ⟨1, by omega⟩
      = (WilliamsFractal.initial (FP.finite 2) (FP.finite 1) (FP.finite 1)
          (FP.finite 2)).lows ⟨1, by omega⟩ :=
  ((next_frame
      (WilliamsFractal.initial (FP.finite 2) (FP.finite 1) (FP.finite 1) (FP.finite 2))
      ⟨FP.finite 9, FP.finite 8, FP.finite 8, FP.finite 9⟩).2
    ⟨1, by omega⟩ (by decide)).2.1

/-- C6: the two-branch offset computation agrees with modular
subtraction `(cursor + 5 - k) % 5` for every cursor and k in 1..4. -/
theorem offset_eq_mod :
    ∀ (t : Fin 5) (k : Fin 4),
      (offset t (k.val + 1)).val = (t.val + 5 - (k.val + 1)) % 5 := by
  decide

/-- If after the write the five lows in time order (t-4 .. t) are
strictly increasing and so are the five highs, `next` returns Neither:
the bullish pattern needs low[t3] < low[t4] and the bearish pattern
needs high[t1] < high[t2], both contradicted by asymmetry. -/
theorem neither_of_post_increasing (s : WilliamsFractal) (b : Bar)
    (hl43 : FP.lt (postLows s b (offset s.t_i 4)) (postLows s b (offset s.t_i 3)) = true)
    (hh21 : FP.lt (postHighs s b (offset s.t_i 2)) (postHighs s b (offset s.t_i 1)) = true) :
    (next s b).2 = WilliamsFractalType.Neither := by
  have hB : bullishCond (postLows s b) (postDirs s b) s.t_i = false := by
    have h1 := FP.lt_asymm hl43
    simp [bullishCond, h1]
  have hE : bearishCond (postHighs s b) (postDirs s b) s.t_i = false := by
    have h1 := FP.lt_asymm hh21
    simp [bearishCond, h1]
  simp [next, hB, hE]

/-- The four most recently stored lows are strictly increasing in time
order (the slot about to be overwritten is unconstrained). -/
def windowLowsIncreasing (s : WilliamsFractal) : Bool :=
  FP.lt (s.lows (offset s.t_i 4)) (s.lows (offset s.t_i 3))
  && FP.lt (s.lows (offset s.t_i 3)) (s.lows (offset s.t_i 2))
  && FP.lt (s.lows (offset s.t_i 2)) (s.lows (offset s.t_i 1))

/-- The four most recently stored highs are strictly increasing in time
order. -/
def windowHighsIncreasing (s : WilliamsFractal) : Bool :=
  FP.lt (s.highs (offset s.t_i 4)) (s.highs (offset s.t_i 3))
  && FP.lt (s.highs (offset s.t_i 3)) (s.highs (offset s.t_i 2))
  && FP.lt (s.highs (offset s.t_i 2)) (s.highs (offset s.t_i 1))

/-- Each fed bar strictly exceeds the previously newest stored low and
high: together with the window invariants this says the whole stream of
highs and lows is strictly increasing. -/
def goodFeed (s : WilliamsFractal) : List Bar → Bool
  | [] => true
  | b :: bs => FP.lt (s.lows (offset s.t_i 1)) b.low
      && FP.lt (s.highs (offset s.t_i 1)) b.high
      && goodFeed (next s b).1 bs

theorem offset_ne_cursor :
    ∀ c : Fin 5, offset c 1 ≠ c ∧ offset c 2 ≠ c ∧ offset c 3 ≠ c ∧ offset c 4 ≠ c := by
  decide

theorem offset_succ :
    ∀ c : Fin 5,
      offset ⟨(c.val + 1) % 5, by omega⟩ 1 = c
      ∧ offset ⟨(c.val + 1) % 5, by omega⟩ 2 = offset c 1
      ∧ offset ⟨(c.val + 1) % 5, by omega⟩ 3 = offset c 2
      ∧ offset ⟨(c.val + 1) % 5, by omega⟩ 4 = offset c 3 := by
  decide

/-- One step of the increasing-window invariant: a bar beyond the
newest stored high and low yields Neither and preserves the invariant. -/
theorem increasing_step (s : WilliamsFractal) (b : Bar)
    (hwl : windowLowsIncreasing s = true)
    (hwh : windowHighsIncreasing s = true)
    (hbl : FP.lt (s.lows (offset s.t_i 1)) b.low = true)
    (hbh : FP.lt (s.highs (offset s.t_i 1)) b.high = true) :
    (next s b).2 = WilliamsFractalType.Neither
    ∧ windowLowsIncreasing (next s b).1 = true
    ∧ windowHighsIncreasing (next s b).1 = true := by
  have hne := offset_ne_cursor s.t_i
  have el1 : postLows s b (offset s.t_i 1) = s.lows (offset s.t_i 1) := by
    simp [postLows, Function.update_noteq hne.1]
  have el2 : postLows s b (offset s.t_i 2) = s.lows (offset s.t_i 2) := by
    simp [postLows, Function.update_noteq hne.2.1]
  have el3 : postLows s b (offset s.t_i 3) = s.lows (offset s.t_i 3) := by
    simp [postLows, Function.update_noteq hne.2.2.1]
  have el4 : postLows s b (offset s.t_i 4) = s.lows (offset s.t_i 4) := by
    simp [postLows, Function.update_noteq hne.2.2.2]
  have elc : postLows s b s.t_i = b.low := by simp [postLows]
  have eh1 : postHighs s b (offset s.t_i 1) = s.highs (offset s.t_i 1) := by
    simp [postHighs, Function.update_noteq hne.1]
  have eh2 : postHighs s b (offset s.t_i 2) = s.highs (offset s.t_i 2) := by
    simp [postHighs, Function.update_noteq hne.2.1]
  have eh3 : postHighs s b (offset s.t_i 3) = s.highs (offset s.t_i 3) := by
    simp [postHighs, Function.update_noteq hne.2.2.1]
  have eh4 : postHighs s b (offset s.t_i 4) = s.highs (offset s.t_i 4) := by
    simp [postHighs, Function.update_noteq hne.2.2.2]
  have ehc : postHighs s b s.t_i = b.high := by simp [postHighs]
  simp only [windowLowsIncreasing, Bool.and_eq_true] at hwl
  obtain ⟨⟨wl43, wl32⟩, wl21⟩ := hwl
  simp only [windowHighsIncreasing, Bool.and_eq_true] at hwh
  obtain ⟨⟨wh43, wh32⟩, wh21⟩ := hwh
  have hsucc := offset_succ s.t_i
  refine ⟨?_, ?_, ?_⟩
  · exact neither_of_post_increasing s b (by rw [el4, el3]; exact wl43)
      (by rw [eh2, eh1]; exact wh21)
  · simp only [next, windowLowsIncreasing, hsucc.2.2.2, hsucc.2.2.1, hsucc.2.1, hsucc.1]
    rw [el3, el2, el1, elc]
    simp [wl32, wl21, hbl]
  · simp only [next, windowHighsIncreasing, hsucc.2.2.2, hsucc.2.2.1, hsucc.2.1, hsucc.1]
    rw [eh3, eh2, eh1, ehc]
    simp [wh32, wh21, hbh]

/-- C7: a strictly increasing window yields Neither.  First part: if
after the write the five lows (and highs) in time order t-4 .. t are
strictly increasing, `next` returns Neither.  Second part: feeding any
strictly increasing continuation of already-increasing stored highs and
lows produces only Neither classifications. -/
theorem increasing_window_neither :
    (∀ (s : WilliamsFractal) (b : Bar),
      (FP.lt (postLows s b (offset s.t_i 4)) (postLows s b (offset s.t_i 3)) = true
        ∧ FP.lt (postLows s b (offset s.t_i 3)) (postLows s b (offset s.t_i 2)) = true
        ∧ FP.lt (postLows s b (offset s.t_i 2)) (postLows s b (offset s.t_i 1)) = true
        ∧ FP.lt (postLows s b (offset s.t_i 1)) (postLows s b s.t_i) = true) →
      (FP.lt (postHighs s b (offset s.t_i 4)) (postHighs s b (offset s.t_i 3)) = true
        ∧ FP.lt (postHighs s b (offset s.t_i 3)) (postHighs s b (offset s.t_i 2)) = true
        ∧ FP.lt (postHighs s b (offset s.t_i 2)) (postHighs s b (offset s.t_i 1)) = true
        ∧ FP.lt (postHighs s b (offset s.t_i 1)) (postHighs s b s.t_i) = true) →
      (next s b).2 = WilliamsFractalType.Neither)
    ∧ ∀ (s : WilliamsFractal) (bs : List Bar),
        windowLowsIncreasing s = true → windowHighsIncreasing s = true →
        goodFeed s bs = true →
        runOutputs s bs = List.replicate bs.length WilliamsFractalType.Neither := by
  constructor
  · intro s b hl hh
    exact neither_of_post_increasing s b hl.1 hh.2.2.1
  · intro s bs
    induction bs generalizing s with
    | nil => intro _ _ _; rfl
    | cons b rest ih =>
      intro hwl hwh hgf
      simp only [goodFeed, Bool.and_eq_true] at hgf
      obtain ⟨⟨hbl, hbh⟩, hrest⟩ := hgf
      have hstep := increasing_step s b hwl hwh hbl hbh
      simp only [runOutputs, List.length_cons, List.replicate_succ]
      rw [hstep.1, ih (next s b).1 hstep.2.1 hstep.2.2 hrest]

/-- Witness for C7: a strictly increasing seeded window plus two
strictly increasing bars. -/
theorem increasing_window_neither_witness :
    (next (WilliamsFractal.new
        (fun i => FP.finite (#[1, 2, 3, 4].get i))
        (fun i => FP.finite (#[1, 2, 3, 4].get i))
        (fun i => FP.finite (#[1, 1, 1, 1].get i))
        (fun i => FP.finite (#[0, 0, 0, 0].get i)))
      ⟨FP.finite 5, FP.finite 5, FP.finite 1, FP.finite 0⟩).2
      = WilliamsFractalType.Neither
    ∧ runOutputs (WilliamsFractal.new
        (fun i => FP.finite (#[1, 2, 3, 4].get i))
        (fun i => FP.finite (#[1, 2, 3, 4].get i))
        (fun i => FP.finite (#[1, 1, 1, 1].get i))
        (fun i => FP.finite (#[0, 0, 0, 0].get i)))
      [⟨FP.finite 5, FP.finite 5, FP.finite 1, FP.finite 0⟩,
       ⟨FP.finite 6, FP.finite 6, FP.finite 1, FP.finite 0⟩]
      = [WilliamsFractalType.Neither, WilliamsFractalType.Neither] :=
  ⟨increasing_window_neither.1
    (WilliamsFractal.new
      (fun i => FP.finite (#[1, 2, 3, 4].get i))
      (fun i => FP.finite (#[1, 2, 3, 4].get i))
      (fun i => FP.finite (#[1, 1, 1, 1].get i))
      (fun i => FP.finite (#[0, 0, 0, 0].get i)))
    ⟨FP.finite 5, FP.finite 5, FP.finite 1, FP.finite 0⟩
    (by decide) (by decide),
   increasing_window_neither.2
    (WilliamsFractal.new
      (fun i => FP.finite (#[1, 2, 3, 4].get i))
      (fun i => FP.finite (#[1, 2, 3, 4].get i))
      (fun i => FP.finite (#[1, 1, 1, 1].get i))
      (fun i => FP.finite (#[0, 0, 0, 0].get i)))
    [⟨FP.finite 5, FP.finite 5, FP.finite 1, FP.finite 0⟩,
     ⟨FP.finite 6, FP.finite 6, FP.finite 1, FP.finite 0⟩]
    (by decide) (by decide) (by decide)⟩

/-- C4 counterexample: a bar with NaN in its `low` field still produces
a Bearish result (the bearish pattern reads only highs and direction
flags), refuting "NaN in any field yields Neither". -/
theorem nan_low_bearish_counterexample :
    (next (WilliamsFractal.new
        (fun i => FP.finite (#[2, 3, 4, 3].get i))
        (fun i => FP.finite (#[1, 2, 3, 2].get i))
        (fun i => FP.finite (#[1, 2, 1, 3].get i))
        (fun i => FP.finite (#[2, 3, 2, 2].get i)))
      ⟨FP.finite 2, FP.nan, FP.finite 2, FP.finite 1⟩).2
    = WilliamsFractalType.Bearish (FP.finite 4) := by
  decide

/-- C4 amended: a NaN `low` rules out a Bullish result, a NaN `high`
rules out a Bearish result, and a bar whose high and low are both NaN
always yields Neither; NaN in a single field does not force Neither. -/
theorem next_nan_neither (s : WilliamsFractal) (b : Bar) :
    (b.low = FP.nan → ∀ v, (next s b).2 ≠ WilliamsFractalType.Bullish v)
    ∧ (b.high = FP.nan → ∀ v, (next s b).2 ≠ WilliamsFractalType.Bearish v)
    ∧ (b.low = FP.nan → b.high = FP.nan → (next s b).2 = WilliamsFractalType.Neither) := by
  have hBlow : b.low = FP.nan →
      bullishCond (postLows s b) (postDirs s b) s.t_i = false := by
    intro hlow
    have ht : postLows s b s.t_i = FP.nan := by simp [postLows, hlow]
    simp [bullishCond, FP.gt, ht, FP.lt_nan_right]
  have hEhigh : b.high = FP.nan →
      bearishCond (postHighs s b) (postDirs s b) s.t_i = false := by
    intro hhigh
    have ht : postHighs s b s.t_i = FP.nan := by simp [postHighs, hhigh]
    simp [bearishCond, ht, FP.lt_nan_left]
  refine ⟨?_, ?_, ?_⟩
  · intro hlow v h
    rcases hE : bearishCond (postHighs s b) (postDirs s b) s.t_i <;>
      simp [next, hBlow hlow, hE] at h
  · intro hhigh v h
    rcases hB : bullishCond (postLows s b) (postDirs s b) s.t_i <;>
      simp [next, hB, hEhigh hhigh] at h
  · intro hlow hhigh
    simp [next, hBlow hlow, hEhigh hhigh]

/-- Witness for the amended C4 at a bar whose high and low are NaN. -/
theorem next_nan_neither_witness :
    (next (WilliamsFractal.initial (FP.finite 2) (FP.finite 1) (FP.finite 1) (FP.finite 2))
      ⟨FP.nan, FP.nan, FP.finite 1, FP.finite 2⟩).2 = WilliamsFractalType.Neither :=
  (next_nan_neither
    (WilliamsFractal.initial (FP.finite 2) (FP.finite 1) (FP.finite 1) (FP.finite 2))
    ⟨FP.nan, FP.nan, FP.finite 1, FP.finite 2⟩).2.2 rfl rfl

/-- C1: the single-seed constructor does NOT guarantee Neither for the
first 4 calls, contradicting the doc comments of `initial` and
`from_initial` ("The next 4 entries will always return Neither"):
seeding with a bearish bar of low 10 and then feeding bars with lows
5, 3, 4, 6 (directions bearish, bearish, bullish, bullish) makes the
4th call report Bullish(3): the stale seed slot still acts as t-4. -/
theorem initial_fourth_step_bullish :
    runOutputs
      (WilliamsFractal.initial (FP.finite 10) (FP.finite 10) (FP.finite 1) (FP.finite 0))
      [⟨FP.finite 10, FP.finite 5, FP.finite 1, FP.finite 0⟩,
       ⟨FP.finite 10, FP.finite 3, FP.finite 1, FP.finite 0⟩,
       ⟨FP.finite 10, FP.finite 4, FP.finite 0, FP.finite 1⟩,
       ⟨FP.finite 10, FP.finite 6, FP.finite 0, FP.finite 1⟩]
    = [WilliamsFractalType.Neither, WilliamsFractalType.Neither, WilliamsFractalType.Neither,
       WilliamsFractalType.Bullish (FP.finite 3)] := by
  decide

/-- Two states with the same cursor that agree on every slot other than
the cursor slot produce the same `next` result (state and output). -/
theorem next_congr (s1 s2 : WilliamsFractal) (b : Bar) (ht : s1.t_i = s2.t_i)
    (hh : ∀ i, i ≠ s1.t_i → s1.highs i = s2.highs i)
    (hl : ∀ i, i ≠ s1.t_i → s1.lows i = s2.lows i)
    (hd : ∀ i, i ≠ s1.t_i → s1.is_bullish i = s2.is_bullish i) :
    next s1 b = next s2 b := by
  have eh : postHighs s1 b = postHighs s2 b := by
    funext i
    by_cases hi : i = s1.t_i
    · subst hi
      simp only [postHighs]
      rw [← ht]
      simp
    · simp only [postHighs]
      rw [← ht, Function.update_noteq hi, Function.update_noteq hi]
      exact hh i hi
  have el : postLows s1 b = postLows s2 b := by
    funext i
    by_cases hi : i = s1.t_i
    · subst hi
      simp only [postLows]
      rw [← ht]
      simp
    · simp only [postLows]
      rw [← ht, Function.update_noteq hi, Function.update_noteq hi]
      exact hl i hi
  have ed : postDirs s1 b = postDirs s2 b := by
    funext i
    by_cases hi : i = s1.t_i
    · subst hi
      simp only [postDirs]
      rw [← ht]
      simp
    · simp only [postDirs]
      rw [← ht, Function.update_noteq hi, Function.update_noteq hi]
      exact hd i hi
  simp [next, eh, el, ed, ht]

/-- C10: the placeholder slot 4 left by the windowed constructor never
influences any output: two detectors with cursor 4 that agree on slots
0-3 (but may differ arbitrarily in slot 4) return identical
classification sequences on every input list, because the first call
overwrites slot 4 before any predicate reads it. -/
theorem placeholder_slot_noninterference (s1 s2 : WilliamsFractal)
    (ht1 : s1.t_i.val = 4) (ht2 : s2.t_i.val = 4)
    (hh : ∀ i : Fin 5, i.val < 4 → s1.highs i = s2.highs i)
    (hl : ∀ i : Fin 5, i.val < 4 → s1.lows i = s2.lows i)
    (hd : ∀ i : Fin 5, i.val < 4 → s1.is_bullish i = s2.is_bullish i) :
    ∀ bs : List Bar, runOutputs s1 bs = runOutputs s2 bs := by
  intro bs
  cases bs with
  | nil => rfl
  | cons b rest =>
    have ht : s1.t_i = s2.t_i := Fin.ext (by omega)
    have lt4 : ∀ i : Fin 5, i ≠ s1.t_i → i.val < 4 := by
      intro i hi
      have h5 := i.isLt
      have hv : i.val ≠ 4 := fun hv => hi (Fin.ext (by omega))
      omega
    have hcong : next s1 b = next s2 b :=
      next_congr s1 s2 b ht
        (fun i hi => hh i (lt4 i hi))
        (fun i hi => hl i (lt4 i hi))
        (fun i hi => hd i (lt4 i hi))
    simp [runOutputs, hcong]

/-- Witness for C10: a windowed-constructed detector versus a copy whose
placeholder slot 4 holds different values, fed one bar. -/
theorem placeholder_slot_noninterference_witness :
    runOutputs
      (WilliamsFractal.new
        (fun i => FP.finite (#[4, 3, 2, 3].get i))
        (fun i => FP.finite (#[3, 2, 1, 2].get i))
        (fun i => FP.finite (#[4, 3, 2, 2].get i))
        (fun i => FP.finite (#[3, 2, 1, 3].get i)))
      [⟨FP.finite 4, FP.finite 3, FP.finite 3, FP.finite 4⟩]
    = runOutputs
      ⟨fun i => FP.finite (#[4, 3, 2, 3, 77].get i),
       fun i => FP.finite (#[3, 2, 1, 2, 88].get i),
       fun i => #[false, false, false, true, true].get i,
       ⟨4, by omega⟩⟩
      [⟨FP.finite 4, FP.finite 3, FP.finite 3, FP.finite 4⟩] :=
  placeholder_slot_noninterference
    (WilliamsFractal.new
      (fun i => FP.finite (#[4, 3, 2, 3].get i))
      (fun i => FP.finite (#[3, 2, 1, 2].get i))
      (fun i => FP.finite (#[4, 3, 2, 2].get i))
      (fun i => FP.finite (#[3, 2, 1, 3].get i)))
    ⟨fun i => FP.finite (#[4, 3, 2, 3, 77].get i),
     fun i => FP.finite (#[3, 2, 1, 2, 88].get i),
     fun i => #[false, false, false, true, true].get i,
     ⟨4, by omega⟩⟩
    rfl rfl (by decide) (by decide) (by decide)
    [⟨FP.finite 4, FP.finite 3, FP.finite 3, FP.finite 4⟩]

/-- C8: the concrete bullish scenario of `tests::test_bullish_basic`:
windowed construction with highs [4,3,2,3], lows [3,2,1,2],
opens [4,3,2,2], closes [3,2,1,3], then a bar with open=3, close=4,
high=4, low=3, returns Bullish(1.0). -/
theorem test_bullish_basic_eval :
    (next (WilliamsFractal.new
        (fun i => FP.finite (#[4, 3, 2, 3].get i))
        (fun i => FP.finite (#[3, 2, 1, 2].get i))
        (fun i => FP.finite (#[4, 3, 2, 2].get i))
        (fun i => FP.finite (#[3, 2, 1, 3].get i)))
      ⟨FP.finite 4, FP.finite 3, FP.finite 3, FP.finite 4⟩).2
    = WilliamsFractalType.Bullish (FP.finite 1) := by
  decide
